import Mathlib

/-!
Verification of the drone-runner-kube sources against its specification.

Each section embeds one part of the Go source as executable Lean
definitions and proves the properties claimed by the specification.
External effects (Kubernetes API calls, log streams, sleeps) are made
explicit: every fallible call is driven by an outcome oracle passed as a
function argument, and the embedding records the observable trace
(attempt counts, sleep durations, resources touched, errors collected).
-/

set_option autoImplicit false

/-! ## Static secret provider (package secret, `static.Find`) -/

/-- Embeds `drone.Secret` restricted to the fields read by `static.Find`:
`Name`, `Data` and `PullRequest`. -/
structure DroneSecret where
  name : String
  data : String
  pullRequest : Bool
deriving DecidableEq

/-- Embeds the constant `drone.EventPullRequest`. -/
def eventPullRequest : String := "pull_request"

/-- Embeds `strings.EqualFold` as case-insensitive string equality
(lower-casing both sides; simple folding suffices for the repository's use). -/
def eqFold (a b : String) : Bool := a.toLower == b.toLower

/-- Embeds `static.Find`: walk the static list; skip entries whose name
does not match case-insensitively; skip entries restricted from pull
requests when the build event is `pull_request`; return the first
remaining entry, or none. -/
def staticFind : List DroneSecret → String → String → Option DroneSecret
  | [], _, _ => none
  | s :: rest, reqName, event =>
    if !(eqFold s.name reqName) then
      staticFind rest reqName event
    else if !s.pullRequest && (event == eventPullRequest) then
      staticFind rest reqName event
    else
      some s

theorem staticFind_mem {secrets : List DroneSecret} {reqName event : String}
    {s : DroneSecret} (h : staticFind secrets reqName event = some s) :
    s ∈ secrets ∧ eqFold s.name reqName = true ∧
      (s.pullRequest = true ∨ event ≠ eventPullRequest) := by
  induction secrets with
  | nil => simp [staticFind] at h
  | cons t rest ih =>
    rw [staticFind] at h
    cases hf : eqFold t.name reqName with
    | false =>
      rw [hf] at h
      simp only [Bool.not_false, if_true] at h
      rcases ih h with ⟨h1, h2, h3⟩
      exact ⟨List.mem_cons_of_mem _ h1, h2, h3⟩
    | true =>
      rw [hf] at h
      simp only [Bool.not_true, if_false, Bool.false_eq_true] at h
      cases hp : t.pullRequest with
      | false =>
        rw [hp] at h
        cases he : (event == eventPullRequest) with
        | true =>
          rw [he] at h
          simp only [Bool.not_false, Bool.true_and, if_true] at h
          rcases ih h with ⟨h1, h2, h3⟩
          exact ⟨List.mem_cons_of_mem _ h1, h2, h3⟩
        | false =>
          rw [he] at h
          simp only [Bool.not_false, Bool.true_and, Bool.false_eq_true,
            if_false] at h
          cases h
          refine ⟨List.mem_cons_self _ _, hf, Or.inr ?_⟩
          intro hev
          rw [hev] at he
          simp at he
      | true =>
        rw [hp] at h
        simp only [Bool.not_true, Bool.false_and, Bool.false_eq_true,
          if_false] at h
        cases h
        exact ⟨List.mem_cons_self _ _, hf, Or.inl hp⟩

theorem staticFind_isSome_iff (secrets : List DroneSecret)
    (reqName event : String) :
    (staticFind secrets reqName event).isSome = true ↔
      ∃ s ∈ secrets, eqFold s.name reqName = true ∧
        (s.pullRequest = true ∨ event ≠ eventPullRequest) := by
  induction secrets with
  | nil => simp [staticFind]
  | cons t rest ih =>
    rw [staticFind]
    cases hf : eqFold t.name reqName with
    | false =>
      simp only [Bool.not_false, if_true, ih]
      constructor
      · rintro ⟨s, hs, h2, h3⟩
        exact ⟨s, List.mem_cons_of_mem _ hs, h2, h3⟩
      · rintro ⟨s, hs, h2, h3⟩
        rcases List.mem_cons.mp hs with rfl | hs
        · rw [hf] at h2; exact absurd h2 (by simp)
        · exact ⟨s, hs, h2, h3⟩
    | true =>
      simp only [Bool.not_true, Bool.false_eq_true, if_false]
      cases hp : t.pullRequest with
      | true =>
        simp only [Bool.not_true, Bool.false_and, Bool.false_eq_true,
          if_false, Option.isSome_some, true_iff]
        exact ⟨t, List.mem_cons_self _ _, hf, Or.inl hp⟩
      | false =>
        cases he : (event == eventPullRequest) with
        | true =>
          simp only [Bool.not_false, Bool.true_and, if_true, ih]
          have hev : event = eventPullRequest := by
            exact eq_of_beq he
          constructor
          · rintro ⟨s, hs, h2, h3⟩
            exact ⟨s, List.mem_cons_of_mem _ hs, h2, h3⟩
          · rintro ⟨s, hs, h2, h3⟩
            rcases List.mem_cons.mp hs with rfl | hs
            · rcases h3 with h3 | h3
              · rw [hp] at h3; exact absurd h3 (by simp)
              · exact absurd hev h3
            · exact ⟨s, hs, h2, h3⟩
        | false =>
          simp only [Bool.not_false, Bool.true_and, Bool.false_eq_true,
            if_false, Option.isSome_some, true_iff]
          refine ⟨t, List.mem_cons_self _ _, hf, Or.inr ?_⟩
          intro hev
          rw [hev] at he
          simp at he

/-- Claim C3: for a pull-request build a secret not marked for pull
requests is never returned even when its name matches; and a secret is
found exactly when some list entry matches the requested name
case-insensitively and the pull-request restriction does not apply. -/
theorem thm_C3 (secrets : List DroneSecret) (reqName event : String) :
    (∀ s : DroneSecret, event = eventPullRequest → s.pullRequest = false →
        staticFind secrets reqName event ≠ some s)
    ∧ ((staticFind secrets reqName event).isSome = true ↔
        ∃ s ∈ secrets, eqFold s.name reqName = true ∧
          (s.pullRequest = true ∨ event ≠ eventPullRequest)) := by
  refine ⟨?_, staticFind_isSome_iff secrets reqName event⟩
  intro s hev hpr hfind
  rcases staticFind_mem hfind with ⟨_, _, h3 | h3⟩
  · rw [hpr] at h3; exact absurd h3 (by simp)
  · exact h3 hev

/-- Claim C3 witness: the spec's concrete scenario: the static secret
named token, not marked for pull requests, is not returned for the
request TOKEN under a pull-request event. -/
theorem thm_C3_witness :
    staticFind [⟨"token", "v", false⟩] "TOKEN" eventPullRequest ≠
      some ⟨"token", "v", false⟩ :=
  (thm_C3 [⟨"token", "v", false⟩] "TOKEN" eventPullRequest).1
    ⟨"token", "v", false⟩ rfl rfl

/-! ## Engine setup and teardown (`Kubernetes.Setup`, `Kubernetes.Destroy`) -/

/-- The four kinds of Kubernetes resources the engine creates and deletes:
the stage namespace, the image-pull secret, the generic secret, and the pod. -/
inductive KubeResource
  | nsResource
  | pullSecretRes
  | secretRes
  | podRes
deriving DecidableEq

/-- Embeds the fields of `engine.Spec` that drive `Setup` and `Destroy`:
`Namespace` (non-empty exactly when the stage owns a namespace) and
`PullSecret` (present or absent; the name is enough for the model). -/
structure KSpec where
  namespc : String
  pullSecret : Option String
deriving DecidableEq

/-- Tail of `Kubernetes.Setup` after the secrets: create the pod and
return its error, if any. `attempted` accumulates the creations already
attempted, in order. -/
def setupPod (create : KubeResource → Option String)
    (attempted : List KubeResource) : Option String × List KubeResource :=
  match create .podRes with
  | some e => (some e, attempted ++ [.podRes])
  | none => (none, attempted ++ [.podRes])

/-- Tail of `Kubernetes.Setup` after the pull secret: create the generic
secret, returning its error immediately on failure, else continue with
the pod. -/
def setupSecret (create : KubeResource → Option String)
    (attempted : List KubeResource) : Option String × List KubeResource :=
  match create .secretRes with
  | some e => (some e, attempted ++ [.secretRes])
  | none => setupPod create (attempted ++ [.secretRes])

/-- Tail of `Kubernetes.Setup` after the namespace: create the pull
secret only when the spec has one, returning its error immediately on
failure, else continue with the generic secret. -/
def setupPull (spec : KSpec) (create : KubeResource → Option String)
    (attempted : List KubeResource) : Option String × List KubeResource :=
  if spec.pullSecret.isSome then
    match create .pullSecretRes with
    | some e => (some e, attempted ++ [.pullSecretRes])
    | none => setupSecret create (attempted ++ [.pullSecretRes])
  else setupSecret create attempted

/-- Embeds `Kubernetes.Setup`: create the namespace only when the spec
owns one, then the pull secret when present, then the generic secret,
then the pod; each failing creation returns its error immediately.
`create` is the outcome oracle for each Kubernetes create call; the
result pairs the returned error (none on success) with the list of
creations attempted, in order. -/
def setup (spec : KSpec) (create : KubeResource → Option String) :
    Option String × List KubeResource :=
  if spec.namespc != "" then
    match create .nsResource with
    | some e => (some e, [.nsResource])
    | none => setupPull spec create [.nsResource]
  else setupPull spec create []

/-- The creation order stated by the spec: namespace when owned, pull
secret when present, generic secret, pod. -/
def creationOrder (spec : KSpec) : List KubeResource :=
  (if spec.namespc != "" then [.nsResource] else []) ++
    (if spec.pullSecret.isSome then [.pullSecretRes] else []) ++
    [.secretRes, .podRes]

/-- Written from the spec's words, for comparison with `setup`: attempt
the listed creations in order, stopping at the first error. -/
def firstErrorRun (create : KubeResource → Option String) :
    List KubeResource → Option String × List KubeResource
  | [] => (none, [])
  | r :: rest =>
    match create r with
    | some e => (some e, [r])
    | none =>
      let t := firstErrorRun create rest
      (t.1, r :: t.2)

/-- Embeds `Kubernetes.Destroy`: delete the pull secret when present,
the generic secret, the pod, and the namespace when owned, in that
order, never stopping early; each failure is appended to the multierror
result. `del` is the outcome oracle for each Kubernetes delete call; the
result pairs the deletions attempted, in order, with the accumulated
errors, in order. -/
def destroy (spec : KSpec) (del : KubeResource → Option String) :
    List KubeResource × List String :=
  let s1 : List KubeResource × List String :=
    if spec.pullSecret.isSome then
      match del .pullSecretRes with
      | some e => ([.pullSecretRes], [e])
      | none => ([.pullSecretRes], [])
    else ([], [])
  let s2 : List KubeResource × List String :=
    match del .secretRes with
    | some e => (s1.1 ++ [.secretRes], s1.2 ++ [e])
    | none => (s1.1 ++ [.secretRes], s1.2)
  let s3 : List KubeResource × List String :=
    match del .podRes with
    | some e => (s2.1 ++ [.podRes], s2.2 ++ [e])
    | none => (s2.1 ++ [.podRes], s2.2)
  if spec.namespc != "" then
    match del .nsResource with
    | some e => (s3.1 ++ [.nsResource], s3.2 ++ [e])
    | none => (s3.1 ++ [.nsResource], s3.2)
  else s3

/-- Claim C5: `Setup` attempts the creations exactly in the spec's order
(namespace when owned, pull secret when present, generic secret, pod),
stopping at the first error, which it returns; when every creation
succeeds it returns no error. -/
theorem thm_C5 (spec : KSpec) (create : KubeResource → Option String) :
    setup spec create = firstErrorRun create (creationOrder spec)
    ∧ ((∀ r : KubeResource, create r = none) → (setup spec create).1 = none) := by
  constructor
  · cases hns : spec.namespc != "" <;>
      cases hps : spec.pullSecret.isSome <;>
      cases hn : create .nsResource <;>
      cases hp : create .pullSecretRes <;>
      cases hs : create .secretRes <;>
      cases hpo : create .podRes <;>
      simp [setup, setupPull, setupSecret, setupPod, creationOrder,
        firstErrorRun, hns, hps, hn, hp, hs, hpo]
  · intro hall
    cases hns : spec.namespc != "" <;>
      cases hps : spec.pullSecret.isSome <;>
      simp [setup, setupPull, setupSecret, setupPod, hns, hps, hall]

/-- Claim C5 witness: for a spec owning a namespace and carrying a pull
secret, with every creation succeeding, `Setup` returns no error. -/
theorem thm_C5_witness :
    (setup ⟨"drone-job", some "pullsec"⟩ (fun _ => none)).1 = none :=
  (thm_C5 ⟨"drone-job", some "pullsec"⟩ (fun _ => none)).2
    (fun _ => rfl)

/-- Claim C4: `Destroy` attempts the deletion of exactly the resources
`Setup` creates, regardless of which deletions fail (the attempted list
does not depend on the delete outcomes), and it returns the accumulated
errors of all failed deletions, in order, not just the first. -/
theorem thm_C4 (spec : KSpec) (del : KubeResource → Option String) :
    ((destroy spec del).1 =
      (if spec.pullSecret.isSome then [.pullSecretRes] else []) ++
        [.secretRes, .podRes] ++
        (if spec.namespc != "" then [.nsResource] else []))
    ∧ (∀ r : KubeResource, r ∈ (destroy spec del).1 ↔ r ∈ creationOrder spec)
    ∧ (destroy spec del).2 = (destroy spec del).1.filterMap del := by
  refine ⟨?_, ?_, ?_⟩
  · cases hns : spec.namespc != "" <;>
      cases hps : spec.pullSecret.isSome <;>
      cases hn : del .nsResource <;>
      cases hp : del .pullSecretRes <;>
      cases hs : del .secretRes <;>
      cases hpo : del .podRes <;>
      simp [destroy, hns, hps, hn, hp, hs, hpo]
  · intro r
    cases hns : spec.namespc != "" <;>
      cases hps : spec.pullSecret.isSome <;>
      cases hn : del .nsResource <;>
      cases hp : del .pullSecretRes <;>
      cases hs : del .secretRes <;>
      cases hpo : del .podRes <;>
      simp [destroy, creationOrder, hns, hps, hn, hp, hs, hpo] <;>
      tauto
  · cases hns : spec.namespc != "" <;>
      cases hps : spec.pullSecret.isSome <;>
      cases hn : del .nsResource <;>
      cases hp : del .pullSecretRes <;>
      cases hs : del .secretRes <;>
      cases hpo : del .podRes <;>
      simp [destroy, List.filterMap, hns, hps, hn, hp, hs, hpo]

/-! ## Log tail retry (`Kubernetes.Run`, feature-flag block) -/

/-- Observable trace of the tail phase of `Kubernetes.Run`: how many
times `k.tail` was invoked, the seconds slept before each retry, and
whether the last invocation succeeded. -/
structure TailTrace where
  calls : Nat
  sleeps : List Nat
  ok : Bool
deriving DecidableEq

/-- Embeds the tail phase of `Kubernetes.Run` (the feature-flag block):
call `k.tail`; on error, if `DRONE_FEATURE_FLAG_RETRY_LOGS` is the
string true, sleep 5 seconds and call again; then, if there is still an
error, sleep 5 seconds and call again, this second retry not being
guarded by the flag. `flag` is whether the environment variable equals
true; `tailok k` is whether the k-th invocation of `k.tail` succeeds. -/
def tailPhase (flag : Bool) (tailok : Nat → Bool) : TailTrace :=
  if tailok 0 then ⟨1, [], true⟩
  else
    let mid : TailTrace :=
      if flag then ⟨2, [5], tailok 1⟩
      else ⟨1, [], false⟩
    if mid.ok then mid
    else ⟨mid.calls + 1, mid.sleeps ++ [5], tailok mid.calls⟩

/-- Claim C1 counterexample: with the feature flag unset and a tail that
always errors, `Run` still invokes the tail a second time, so a tail
error is not returned without retry as the claim states. -/
theorem thm_C1_counterexample :
    (tailPhase false (fun _ => false)).calls = 2 ∧
      ¬ (tailPhase false (fun _ => false)).calls = 1 := by
  constructor
  · rfl
  · intro h
    simp [tailPhase] at h

/-- Claim C1 as amended: the tail is retried at most two additional
times with a 5-second pause before each retry; only the first retry is
guarded by the flag, so even with the flag unset a failing tail is
retried exactly once; no retry happens when the first tail succeeds. -/
theorem thm_C1 (flag : Bool) (tailok : Nat → Bool) :
    (tailPhase flag tailok).calls ≤ 3
    ∧ (flag = false → (tailPhase flag tailok).calls ≤ 2)
    ∧ (tailok 0 = true → tailPhase flag tailok = ⟨1, [], true⟩)
    ∧ (flag = false → tailok 0 = false → (tailPhase flag tailok).calls = 2)
    ∧ (∀ s ∈ (tailPhase flag tailok).sleeps, s = 5)
    ∧ (tailPhase flag tailok).sleeps.length =
        (tailPhase flag tailok).calls - 1 := by
  cases flag <;> cases h0 : tailok 0 <;> cases h1 : tailok 1 <;>
    simp [tailPhase, h0, h1]

/-- Claim C1 witness: with the flag unset and a tail erroring on every
attempt, the number of tail invocations stays at most two. -/
theorem thm_C1_witness :
    (tailPhase false (fun _ => false)).calls ≤ 2 :=
  (thm_C1 false (fun _ => false)).2.1 rfl

/-! ## Optimistic-concurrency retry (`backoff`, `Kubernetes.start`) -/

/-- Outcome of one invocation of the read-modify-write closure passed to
`retry.RetryOnConflict`: success, an optimistic-concurrency conflict
(retriable), or any other error (not retriable). -/
inductive FnOut
  | ok
  | conflict
  | err (e : String)
deriving DecidableEq

/-- Observable trace of a `retry.RetryOnConflict` call: how many times
the closure was invoked, the sleeps between invocations in
milliseconds, and the returned error, if any. -/
structure BackoffTrace where
  attempts : Nat
  delays : List Nat
  failure : Option String
deriving DecidableEq

/-- Embeds `wait.ErrWaitTimeout`, the sentinel returned when the backoff
budget is exhausted. -/
def errWaitTimeout : String := "timed out waiting for the condition"

/-- Stands for the last conflict error that `retry.OnError` returns in
place of `wait.ErrWaitTimeout` when the budget is exhausted. -/
def conflictErrMsg : String := "Conflict"

/-- `Steps` of the engine's package-level `backoff` variable. -/
def backoffSteps : Nat := 15

/-- `Duration` of the engine's `backoff` variable, in milliseconds. -/
def backoffDurationMs : Nat := 500

/-- `Factor` of the engine's `backoff` variable. The source holds the
float 1.0; multiplication by it is exact, so a natural number is
faithful. -/
def backoffFactor : Nat := 1

/-- Loop body of `wait.ExponentialBackoff` combined with the conflict
classification of `retry.OnError`: classify the closure's outcome; stop
on success or a non-retriable error; when no further step remains,
report an exhausted budget; otherwise sleep `Backoff.Step()` (the
current duration plus a sampled jitter, after which the duration is
multiplied by the factor) and continue through `rec`. -/
def expBody (fnout : Nat → FnOut) (jit : Nat → Nat)
    (steps dur factor i : Nat) (rec : Nat → Nat → BackoffTrace) : BackoffTrace :=
  match fnout i with
  | .ok => ⟨1, [], none⟩
  | .err e => ⟨1, [], some e⟩
  | .conflict =>
    match steps with
    | 0 => ⟨1, [], some errWaitTimeout⟩
    | _ + 1 =>
      let t := rec (dur * factor) (i + 1)
      ⟨t.attempts + 1, (dur + jit i) :: t.delays, t.failure⟩

/-- Embeds `wait.ExponentialBackoff`: run `expBody` while steps remain.
`fnout k` is the outcome of the k-th invocation of the closure and
`jit k` the jitter sampled before the k-th sleep (the source draws it
uniformly below `Jitter` = 0.5 times the duration). -/
def expBackoff (fnout : Nat → FnOut) (jit : Nat → Nat) :
    Nat → Nat → Nat → Nat → BackoffTrace
  | 0, _, _, _ => ⟨0, [], some errWaitTimeout⟩
  | steps + 1, dur, factor, i =>
    expBody fnout jit steps dur factor i
      (fun dur2 i2 => expBackoff fnout jit steps dur2 factor i2)

theorem expBackoff_succ (fnout : Nat → FnOut) (jit : Nat → Nat)
    (steps dur factor i : Nat) :
    expBackoff fnout jit (steps + 1) dur factor i =
      expBody fnout jit steps dur factor i
        (fun dur2 i2 => expBackoff fnout jit steps dur2 factor i2) := rfl

/-- Embeds `retry.RetryOnConflict(backoff, fn)` as called by
`Kubernetes.start` for the pod read-modify-write: run the exponential
backoff with the engine's backoff parameters, and replace an exhausted
budget's `ErrWaitTimeout` by the last conflict error. -/
def retryOnConflict (fnout : Nat → FnOut) (jit : Nat → Nat) : BackoffTrace :=
  let t := expBackoff fnout jit backoffSteps backoffDurationMs backoffFactor 0
  if t.failure = some errWaitTimeout then ⟨t.attempts, t.delays, some conflictErrMsg⟩
  else t

/-- The growth property asserted by the claim: each delay between
attempts is strictly larger than the previous one. -/
def delaysStrictlyGrow (t : BackoffTrace) : Prop :=
  ∀ i : Nat, i + 1 < t.delays.length →
    t.delays.getD i 0 < t.delays.getD (i + 1) 0

theorem retryOnConflict_attempts (fnout : Nat → FnOut) (jit : Nat → Nat) :
    (retryOnConflict fnout jit).attempts =
      (expBackoff fnout jit backoffSteps backoffDurationMs backoffFactor 0).attempts := by
  simp only [retryOnConflict]
  split <;> rfl

theorem retryOnConflict_delays (fnout : Nat → FnOut) (jit : Nat → Nat) :
    (retryOnConflict fnout jit).delays =
      (expBackoff fnout jit backoffSteps backoffDurationMs backoffFactor 0).delays := by
  simp only [retryOnConflict]
  split <;> rfl

theorem expBackoff_attempts_le (fnout : Nat → FnOut) (jit : Nat → Nat) :
    ∀ steps dur factor i : Nat,
      (expBackoff fnout jit steps dur factor i).attempts ≤ steps := by
  intro steps
  induction steps with
  | zero => intro dur factor i; simp [expBackoff]
  | succ s ih =>
    intro dur factor i
    rw [expBackoff_succ]
    cases hfn : fnout i with
    | ok => simp [expBody, hfn]
    | err e => simp [expBody, hfn]
    | conflict =>
      cases s with
      | zero => simp [expBody, hfn]
      | succ s2 =>
        have h := ih (dur * factor) factor (i + 1)
        simp only [expBody, hfn]
        omega

theorem expBackoff_ok (fnout : Nat → FnOut) (jit : Nat → Nat)
    (steps dur factor i : Nat) (h : fnout i = FnOut.ok) :
    expBackoff fnout jit (steps + 1) dur factor i = ⟨1, [], none⟩ := by
  rw [expBackoff_succ]
  simp only [expBody, h]

theorem expBackoff_delays_base (fnout : Nat → FnOut) (jit : Nat → Nat) :
    ∀ steps i dur : Nat, ∀ d ∈ (expBackoff fnout jit steps dur 1 i).delays,
      ∃ k, d = dur + jit k := by
  intro steps
  induction steps with
  | zero => intro i dur d hd; simp [expBackoff] at hd
  | succ s ih =>
    intro i dur d hd
    rw [expBackoff_succ] at hd
    cases hfn : fnout i with
    | ok => simp [expBody, hfn] at hd
    | err e => simp [expBody, hfn] at hd
    | conflict =>
      cases s with
      | zero => simp [expBody, hfn] at hd
      | succ s2 =>
        simp only [expBody, hfn] at hd
        rcases List.mem_cons.mp hd with rfl | hd
        · exact ⟨i, rfl⟩
        · have h2 := ih (i + 1) (dur * 1) d (by simpa using hd)
          simpa using h2

/-- Claim C2 counterexample: instantiated at a read-modify-write that
conflicts on every attempt and a zero jitter sample, the engine's
backoff produces the constant delay sequence (500 ms fourteen times):
the delay between attempts does not grow, because `backoff.Factor` is
1.0. -/
theorem thm_C2_counterexample :
    ¬ delaysStrictlyGrow
        (retryOnConflict (fun _ => FnOut.conflict) (fun _ => 0)) := by
  intro h
  have h1 : (retryOnConflict (fun _ => FnOut.conflict) (fun _ => 0)).delays
      = List.replicate 14 500 := by decide
  have h2 := h 0 (by rw [h1]; decide)
  rw [h1] at h2
  exact absurd h2 (by decide)

/-- Claim C2 as amended: the read-modify-write is retried on conflicts
with a bounded backoff of at most 15 attempts, a 500 ms base duration
and 0.5 jitter, but `Factor` = 1.0 keeps the base constant: every delay
equals 500 ms plus the sampled jitter (so with zero jitter every delay
is exactly 500 ms), and a first successful attempt means exactly one
invocation. -/
theorem thm_C2 (fnout : Nat → FnOut) (jit : Nat → Nat) :
    (retryOnConflict fnout jit).attempts ≤ backoffSteps
    ∧ (fnout 0 = FnOut.ok → (retryOnConflict fnout jit).attempts = 1)
    ∧ (∀ d ∈ (retryOnConflict fnout jit).delays,
        ∃ k, d = backoffDurationMs + jit k)
    ∧ ((∀ k, jit k = 0) → ∀ d ∈ (retryOnConflict fnout jit).delays,
        d = backoffDurationMs) := by
  refine ⟨?_, ?_, ?_, ?_⟩
  · rw [retryOnConflict_attempts]
    exact expBackoff_attempts_le fnout jit backoffSteps backoffDurationMs backoffFactor 0
  · intro h0
    have he : expBackoff fnout jit backoffSteps backoffDurationMs backoffFactor 0
        = ⟨1, [], none⟩ := by
      have h15 : backoffSteps = 14 + 1 := rfl
      rw [h15]
      exact expBackoff_ok fnout jit 14 backoffDurationMs backoffFactor 0 h0
    rw [retryOnConflict_attempts, he]
  · intro d hd
    rw [retryOnConflict_delays] at hd
    exact expBackoff_delays_base fnout jit backoffSteps 0 backoffDurationMs d hd
  · intro hz d hd
    rw [retryOnConflict_delays] at hd
    rcases expBackoff_delays_base fnout jit backoffSteps 0 backoffDurationMs d hd
      with ⟨k, rfl⟩
    rw [hz k, Nat.add_zero]

/-- Claim C2 witness: a read-modify-write that succeeds immediately is
invoked exactly once, and with zero jitter every delay of an
always-conflicting run is exactly the 500 ms base. -/
theorem thm_C2_witness :
    (retryOnConflict (fun _ => FnOut.ok) (fun _ => 0)).attempts = 1 ∧
      ∀ d ∈ (retryOnConflict (fun _ => FnOut.conflict) (fun _ => 0)).delays,
        d = backoffDurationMs :=
  ⟨(thm_C2 (fun _ => FnOut.ok) (fun _ => 0)).2.1 rfl,
    (thm_C2 (fun _ => FnOut.conflict) (fun _ => 0)).2.2.2 (fun _ => rfl)⟩

/-! ## Run-policy derivation (compiler `isRunAlways`, `isRunOnFailure`) -/

/-- Modelled from the spec: the compiler's run-policy helpers
`isRunAlways` and `isRunOnFailure`, whose bodies are absent from the
sources (only their tests are present). The spec states that
`isRunAlways` holds exactly when the step's `when.status` include-set
contains both success and failure; `incl` is that include-set. -/
def isRunAlways (incl : List String) : Bool :=
  incl.contains "success" && incl.contains "failure"

/-- Modelled from the spec: `isRunOnFailure` holds exactly when the
step's `when.status` include-set contains failure. -/
def isRunOnFailure (incl : List String) : Bool :=
  incl.contains "failure"

/-- Claim C6: `isRunAlways` is true iff the include-set contains both
success and failure, `isRunOnFailure` iff it contains failure, and both
are false on the empty include-set; the model reproduces every vector of
`Test_isRunAlways` and `Test_isRunOnFailure`. -/
theorem thm_C6 (incl : List String) :
    (isRunAlways incl = true ↔ "success" ∈ incl ∧ "failure" ∈ incl)
    ∧ (isRunOnFailure incl = true ↔ "failure" ∈ incl)
    ∧ (isRunAlways [] = false ∧ isRunOnFailure [] = false)
    ∧ (isRunAlways ["success"] = false ∧ isRunAlways ["failure"] = false
        ∧ isRunAlways ["success", "failure"] = true)
    ∧ (isRunOnFailure ["success"] = false ∧ isRunOnFailure ["failure"] = true
        ∧ isRunOnFailure ["success", "failure"] = true) := by
  refine ⟨?_, ?_, by decide, by decide, by decide⟩
  · simp [isRunAlways, List.contains]
  · simp [isRunOnFailure, List.contains]

/-! ## Runner stage execution (`Runner.run`) -/

/-- Observable actions of `Runner.run` after stage details are fetched:
failing every step with an error (`state.FailAll`), reporting the stage
(`Reporter.ReportStage`), compiling the spec (`Compiler.Compile`),
updating the stage to running (`Client.Update`), and executing the
steps (`s.Exec`, which performs engine setup and runs the scheduler). -/
inductive RunEvent
  | failAll (e : String)
  | reportStage
  | compileSpec
  | updateRunning
  | execSteps
deriving DecidableEq

/-- Outcomes of the fallible calls `Runner.run` makes, in source order:
the optional repository match check, shell substitution
(`envsubst.Eval`), YAML parsing (`manifest.ParseString`), stage resource
lookup (`s.Lookup`), linting (`s.Lint`), and the stage update
(`s.Client.Update`). -/
structure RunInputs where
  matchOk : Bool
  substResult : Except String Unit
  parseResult : Except String Unit
  lookupResult : Except String Unit
  lintResult : Option String
  updateResult : Option String

/-- Embeds the control flow of `Runner.run`: each failing configuration
stage calls `state.FailAll(err)` and returns the result of one
`ReportStage`; after linting succeeds the spec is compiled, the stage is
updated to running (returning on failure), and the steps are executed. -/
def runnerRun (i : RunInputs) : List RunEvent :=
  if !i.matchOk then
    [.failAll "insufficient permission to run the pipeline", .reportStage]
  else
    match i.substResult with
    | .error e => [.failAll e, .reportStage]
    | .ok _ =>
      match i.parseResult with
      | .error e => [.failAll e, .reportStage]
      | .ok _ =>
        match i.lookupResult with
        | .error e => [.failAll e, .reportStage]
        | .ok _ =>
          match i.lintResult with
          | some e => [.failAll e, .reportStage]
          | none =>
            match i.updateResult with
            | some _ => [.compileSpec, .updateRunning]
            | none => [.compileSpec, .updateRunning, .execSteps]

/-- A failure of one of the four configuration stages named by the
claim, with error `e`: shell substitution, YAML parsing, resource
lookup, or linting (each later stage only runs when the earlier ones
succeeded). -/
def configFailure (i : RunInputs) (e : String) : Prop :=
  i.substResult = .error e
  ∨ (i.substResult = .ok () ∧ i.parseResult = .error e)
  ∨ (i.substResult = .ok () ∧ i.parseResult = .ok ()
      ∧ i.lookupResult = .error e)
  ∨ (i.substResult = .ok () ∧ i.parseResult = .ok ()
      ∧ i.lookupResult = .ok () ∧ i.lintResult = some e)

/-- Claim C7: when shell substitution, YAML parsing, resource lookup or
linting fails, the runner fails every step with that same error
(`FailAll e`), reports the stage exactly once, and returns without
compiling the spec or executing any step (engine setup happens inside
`execSteps`). -/
theorem thm_C7 (i : RunInputs) (e : String) (hm : i.matchOk = true)
    (hf : configFailure i e) :
    runnerRun i = [.failAll e, .reportStage]
    ∧ (runnerRun i).count .reportStage = 1
    ∧ RunEvent.compileSpec ∉ runnerRun i
    ∧ RunEvent.execSteps ∉ runnerRun i := by
  have htrace : runnerRun i = [.failAll e, .reportStage] := by
    rcases hf with h | ⟨h1, h⟩ | ⟨h1, h2, h⟩ | ⟨h1, h2, h3, h⟩ <;>
      simp [runnerRun, hm, *]
  refine ⟨htrace, ?_, ?_, ?_⟩ <;> rw [htrace] <;> simp [List.count_cons]

/-- Claim C7 witness: a run whose shell substitution fails produces
exactly the fail-all-and-report trace for that error. -/
theorem thm_C7_witness :
    runnerRun ⟨true, .error "bad substitution", .ok (), .ok (), none, none⟩
      = [.failAll "bad substitution", .reportStage] :=
  (thm_C7 ⟨true, .error "bad substitution", .ok (), .ok (), none, none⟩
    "bad substitution" rfl (Or.inl rfl)).1

/-! ## Combined registry providers (registry `Combine`) -/

/-- Modelled from the spec: the registry `Combine` provider, whose body
is absent from the sources (only `combine_test.go` is present). The spec
states that `Combine(p1..pN).List` concatenates the providers' `List`
results preserving input order and, on the first provider error, stops
and returns that error unmodified. Each provider is represented by its
`List` outcome; `α` is the registry credential type. -/
def combineList {α : Type} : List (Except String (List α)) → Except String (List α)
  | [] => .ok []
  | r :: rest =>
    match r with
    | .error e => .error e
    | .ok xs =>
      match combineList rest with
      | .error e => .error e
      | .ok out => .ok (xs ++ out)

/-- Claim C8: when every provider succeeds, `Combine` returns the
concatenation of their results in input order; when some provider
errors, the first error is returned unmodified, whatever follows it;
this reproduces `TestCombine` and `TestCombineError`. -/
theorem thm_C8 {α : Type} (results : List (List α)) (e : String)
    (post : List (Except String (List α))) :
    combineList (results.map Except.ok) = .ok results.flatten
    ∧ combineList (results.map Except.ok ++ Except.error e :: post) = .error e := by
  constructor
  · induction results with
    | nil => simp [combineList]
    | cons xs rest ih => simp [combineList, ih]
  · induction results with
    | nil => simp [combineList]
    | cons xs rest ih => simp [combineList, ih]

/-- Claim C8 witness: the spec's concrete scenarios: two one-element
providers combine to the two-element concatenation in order, and a
single failing provider surfaces its error. -/
theorem thm_C8_witness :
    combineList (([["a"], ["b"]] : List (List String)).map Except.ok)
        = .ok ["a", "b"]
    ∧ combineList (([] : List (List String)).map Except.ok
        ++ Except.error "not found" :: []) = .error "not found" :=
  ⟨(thm_C8 [["a"], ["b"]] "x" []).1, (thm_C8 [] "not found" []).2⟩

/-! ## Serial dependency inference (compiler `configureSerial`) -/

/-- Embeds `engine.Step` restricted to the fields `Test_configureSerial`
inspects: `Name` and `DependsOn`. -/
structure CStep where
  name : String
  dependsOn : List String
deriving DecidableEq

/-- Modelled from the spec: the tail of `configureSerial` once a
predecessor exists: every following step's `depends_on` becomes exactly
its immediate predecessor's name. -/
def serialChain (prev : String) : List CStep → List CStep
  | [] => []
  | s :: rest => { s with dependsOn := [prev] } :: serialChain s.name rest

/-- Modelled from the spec: the compiler's `configureSerial`, whose body
is absent from the sources (only `Test_configureSerial` is present). The
spec states that when no step declares `depends_on`, each step depends
on its predecessor (a serial chain), the first step staying without
dependencies. -/
def configureSerial : List CStep → List CStep
  | [] => []
  | first :: rest => first :: serialChain first.name rest

theorem serialChain_get (l : List CStep) :
    ∀ (prev : String) (k : Nat),
      (serialChain prev l)[k]? = (l[k]?).map fun s =>
        { s with dependsOn := [((prev :: l.map CStep.name)[k]?).getD ""] } := by
  induction l with
  | nil => intro prev k; simp [serialChain]
  | cons x xs ih =>
    intro prev k
    cases k with
    | zero => simp [serialChain]
    | succ k2 => simpa [serialChain] using ih x.name k2

/-- Claim C9: on a spec in which no step declares dependencies,
`configureSerial` keeps the step names and the first step unchanged
(so the first step has no dependencies) and gives each later step
exactly its immediate predecessor as dependency. -/
theorem thm_C9 (steps : List CStep) (h : ∀ s ∈ steps, s.dependsOn = []) :
    ((configureSerial steps).map CStep.name = steps.map CStep.name)
    ∧ ((configureSerial steps).head? = steps.head?)
    ∧ (∀ s0, (configureSerial steps).head? = some s0 → s0.dependsOn = [])
    ∧ (∀ k p s, steps[k]? = some p → steps[k + 1]? = some s →
        (configureSerial steps)[k + 1]? =
          some { s with dependsOn := [p.name] }) := by
  cases steps with
  | nil => simp [configureSerial]
  | cons first rest =>
    refine ⟨?_, ?_, ?_, ?_⟩
    · simp only [configureSerial, List.map_cons, List.cons.injEq, true_and]
      have : ∀ (l : List CStep) (prev : String),
          (serialChain prev l).map CStep.name = l.map CStep.name := by
        intro l
        induction l with
        | nil => intro prev; simp [serialChain]
        | cons x xs ih => intro prev; simp [serialChain, ih]
      exact this rest first.name
    · simp [configureSerial]
    · intro s0 hs0
      simp only [configureSerial, List.head?_cons, Option.some.injEq] at hs0
      rw [← hs0]
      exact h first (List.mem_cons_self _ _)
    · intro k p s hp hs
      simp only [configureSerial, List.getElem?_cons_succ] at hs ⊢
      rw [serialChain_get rest first.name k, hs]
      cases k with
      | zero =>
        simp only [List.getElem?_cons_zero, Option.some.injEq] at hp
        simp [hp]
      | succ k2 =>
        simp only [List.getElem?_cons_succ] at hp
        simp [List.getElem?_map, hp]

/-- Claim C9 witness: the spec's concrete scenario: steps build, test,
deploy without dependencies compile to test depending on build and
deploy depending on test. -/
theorem thm_C9_witness :
    (configureSerial [⟨"build", []⟩, ⟨"test", []⟩, ⟨"deploy", []⟩])[1]?
        = some ⟨"test", ["build"]⟩
    ∧ (configureSerial [⟨"build", []⟩, ⟨"test", []⟩, ⟨"deploy", []⟩])[2]?
        = some ⟨"deploy", ["test"]⟩ :=
  ⟨(thm_C9 [⟨"build", []⟩, ⟨"test", []⟩, ⟨"deploy", []⟩] (by decide)).2.2.2
      0 ⟨"build", []⟩ ⟨"test", []⟩ rfl rfl,
    (thm_C9 [⟨"build", []⟩, ⟨"test", []⟩, ⟨"deploy", []⟩] (by decide)).2.2.2
      1 ⟨"test", []⟩ ⟨"deploy", []⟩ rfl rfl⟩

/-! ## Step run result (`Kubernetes.Run`, `Kubernetes.waitForTerminated`) -/

/-- Embeds `v1.ContainerStatus` restricted to the fields the engine
reads: `Name`, `Image`, whether `State.Running` is set, and
`State.Terminated` with its exit code when set. -/
structure ContainerStatus where
  name : String
  image : String
  running : Bool
  terminated : Option Int
deriving DecidableEq

/-- Embeds `image.Match` (whose normalization pass is outside the
sources) as equality of already-normalized image references. -/
def imageMatch (a b : String) : Bool := a == b

/-- Embeds `engine.Step` restricted to the fields `Run` reads: the
container id, the real image, and the placeholder image. -/
structure StepModel where
  id : String
  image : String
  placeholder : String
deriving DecidableEq

/-- Embeds `runtime.State` restricted to the fields the engine writes. -/
structure RState where
  exited : Bool
  exitCode : Int
  oomKilled : Bool
deriving DecidableEq

/-- Embeds the condition closure of `waitForTerminated`: scan the pod's
container statuses for the step's container; when its image differs
from the placeholder and it is terminated, yield the exit code. -/
def findTermExit (stepId placeholder : String) :
    List ContainerStatus → Option Int
  | [] => none
  | cs :: rest =>
    if !(cs.name == stepId) then
      findTermExit stepId placeholder rest
    else if !(imageMatch cs.image placeholder) && cs.terminated.isSome then
      cs.terminated
    else
      findTermExit stepId placeholder rest

/-- Embeds `Kubernetes.waitForTerminated`: watch successive pod
observations until the step's container is terminated with a
non-placeholder image; the returned state has `Exited` true and
`OOMKilled` false, and captures only the exit code. A watch that ends
without the condition (cancellation, pod deletion) is an error. -/
def waitForTerminated (stepId placeholder : String) :
    List (List ContainerStatus) → Except String RState
  | [] => .error "pod got deleted"
  | pod :: rest =>
    match findTermExit stepId placeholder pod with
    | some code => .ok ⟨true, code, false⟩
    | none => waitForTerminated stepId placeholder rest

/-- Embeds the control flow of `Kubernetes.Run`: start the step
(returning its error), wait for the container to be ready (returning
its error), run the tail phase with its retries (returning the last
tail error), then wait for termination. `obs` is the sequence of pod
observations delivered by the termination watch. -/
def kubeRun (startErr readyErr : Option String) (flag : Bool)
    (tailok : Nat → Bool) (obs : List (List ContainerStatus))
    (step : StepModel) : Except String RState :=
  match startErr with
  | some e => .error e
  | none =>
    match readyErr with
    | some e => .error e
    | none =>
      if (tailPhase flag tailok).ok then
        waitForTerminated step.id step.placeholder obs
      else
        .error "log stream error"

theorem waitForTerminated_ok {stepId placeholder : String}
    {obs : List (List ContainerStatus)} {st : RState}
    (h : waitForTerminated stepId placeholder obs = .ok st) :
    st.exited = true ∧ st.oomKilled = false
      ∧ ∃ pod ∈ obs, findTermExit stepId placeholder pod = some st.exitCode := by
  induction obs with
  | nil => simp [waitForTerminated] at h
  | cons pod rest ih =>
    rw [waitForTerminated] at h
    cases hf : findTermExit stepId placeholder pod with
    | some code =>
      rw [hf] at h
      cases h
      exact ⟨rfl, rfl, pod, List.mem_cons_self _ _, hf⟩
    | none =>
      rw [hf] at h
      rcases ih h with ⟨h1, h2, q, hq, hcode⟩
      exact ⟨h1, h2, q, List.mem_cons_of_mem _ hq, hcode⟩

/-- Claim C10: whenever `Run` returns a state, that state has `Exited`
true and `OOMKilled` false, and its exit code is exactly the one of the
terminated non-placeholder container observed by the termination watch:
the engine never reports an OOM-killed step. -/
theorem thm_C10 (startErr readyErr : Option String) (flag : Bool)
    (tailok : Nat → Bool) (obs : List (List ContainerStatus))
    (step : StepModel) (st : RState)
    (h : kubeRun startErr readyErr flag tailok obs step = .ok st) :
    st.exited = true ∧ st.oomKilled = false
      ∧ ∃ pod ∈ obs, findTermExit step.id step.placeholder pod
          = some st.exitCode := by
  cases startErr with
  | some e => simp [kubeRun] at h
  | none =>
    cases readyErr with
    | some e => simp [kubeRun] at h
    | none =>
      rw [kubeRun] at h
      by_cases ht : (tailPhase flag tailok).ok
      · rw [if_pos ht] at h
        exact waitForTerminated_ok h
      · rw [if_neg ht] at h
        cases h

/-- Claim C10 witness: a run whose watch first sees the placeholder
container and then the terminated real container yields the state with
`Exited` true, `OOMKilled` false and the observed exit code 0. -/
theorem thm_C10_witness :
    (true = true ∧ false = false
      ∧ ∃ pod ∈ [[ContainerStatus.mk "step1" "placeholder:latest" false none],
          [ContainerStatus.mk "step1" "alpine:3" false (some 0)]],
          findTermExit "step1" "placeholder:latest" pod = some 0) := by
  have h := thm_C10 none none false (fun _ => true)
    [[ContainerStatus.mk "step1" "placeholder:latest" false none],
      [ContainerStatus.mk "step1" "alpine:3" false (some 0)]]
    ⟨"step1", "alpine:3", "placeholder:latest"⟩ ⟨true, 0, false⟩ (by rfl)
  exact h
